import Mathlib

/-!
Shallow embedding of `main.py` (Worms Direct invoice attachment downloader
and classifier).

Pure fragments of the Python source are translated to Lean functions; the
stateful mail-polling loop (`EmailAttachmentDownloader.check_emails`) is
modelled by explicit state passing over a `DState` record; fallible
operations return `Option` or `Except`, with `none` / `.error` standing for
a raised Python exception.  Machine integers are modelled by `Nat` / `Int`
(Python integers are unbounded, so no wrap-around is involved).
-/

set_option autoImplicit false

namespace WormsDirect

/-! ## String utilities shared by the poller and the classifier -/

/-- Python `str.lower()` restricted to the character data handled here (the
strings this is applied to are matched by ASCII-only regex classes, on which
`str.lower()` agrees with a character-wise ASCII lowering). -/
def pyLower (s : String) : String :=
  String.mk (s.data.map Char.toLower)

/-- Decidable equality for `Except`, so that concrete runs of the embedded
functions can be checked by `decide`. -/
instance exceptDecEq {α β : Type} [DecidableEq α] [DecidableEq β] :
    DecidableEq (Except α β)
  | .error x, .error y =>
    if h : x = y then .isTrue (congrArg Except.error h)
    else .isFalse (fun hc => h (Except.error.inj hc))
  | .error _, .ok _ => .isFalse (fun hc => Except.noConfusion hc)
  | .ok _, .error _ => .isFalse (fun hc => Except.noConfusion hc)
  | .ok x, .ok y =>
    if h : x = y then .isTrue (congrArg Except.ok h)
    else .isFalse (fun hc => h (Except.ok.inj hc))

/-- The nine characters replaced by `sanitize_filename`
(regex class `[<>:"/\\|?*]` in `main.py`). -/
def invalidChars : List Char := ['<', '>', ':', '"', '/', '\\', '|', '?', '*']

/-- One step of `re.sub(r'[<>:"/\\|?*]', '_', filename)`: the class matches a
single character, so the substitution is a character-wise map. -/
def replaceInvalid (c : Char) : Char :=
  if c ∈ invalidChars then '_' else c

/-- ASCII whitespace stripped by Python's `str.strip()` (the space characters
`' '`, `\t`, `\n`, `\r`, `\x0b`, `\x0c`; the additional Unicode space code
points accepted by CPython play no role in this development). -/
def isPySpace (c : Char) : Bool :=
  c == ' ' || c == '\t' || c == '\n' || c == '\r' || c == '\x0b' || c == '\x0c'

/-- Python `str.strip()` on a character list: drop leading and trailing
whitespace. -/
def pyStrip (l : List Char) : List Char :=
  ((l.dropWhile isPySpace).reverse.dropWhile isPySpace).reverse

/-- `EmailAttachmentDownloader.sanitize_filename` (main.py:355-359):
`re.sub(r'[<>:"/\\|?*]', '_', filename).strip()`. -/
def sanitize_filename (s : String) : String :=
  String.mk (pyStrip (s.data.map replaceInvalid))

/-- Membership in `dropWhile` implies membership in the original list. -/
theorem mem_of_mem_dropWhile {α : Type} {p : α → Bool} {c : α} :
    ∀ {l : List α}, c ∈ l.dropWhile p → c ∈ l := by
  intro l
  induction l with
  | nil => intro h; exact absurd h (by simp)
  | cons a t ih =>
    intro h
    by_cases hp : p a = true
    · simp only [List.dropWhile_cons, hp, if_true] at h
      exact List.mem_cons_of_mem _ (ih h)
    · simp only [List.dropWhile_cons, hp] at h
      simpa using h

/-- Membership in `pyStrip` implies membership in the original list. -/
theorem mem_of_mem_pyStrip {c : Char} {l : List Char} :
    c ∈ pyStrip l → c ∈ l := by
  intro h
  unfold pyStrip at h
  rw [List.mem_reverse] at h
  have h2 := mem_of_mem_dropWhile h
  rw [List.mem_reverse] at h2
  exact mem_of_mem_dropWhile h2

/-- C10: for every input string, `sanitize_filename` returns the input with
each occurrence of the characters `< > : " / \ | ? *` replaced by an
underscore and with leading/trailing whitespace stripped; consequently its
result never contains any of those nine characters. -/
theorem C10_sanitize_replaces_and_strips (s : String) :
    (sanitize_filename s).data = pyStrip (s.data.map replaceInvalid) ∧
    (sanitize_filename s).data.all (fun c => decide (c ∉ invalidChars)) = true := by
  refine ⟨rfl, ?_⟩
  rw [List.all_eq_true]
  intro c hc
  have hmem : c ∈ s.data.map replaceInvalid := by
    have : c ∈ pyStrip (s.data.map replaceInvalid) := hc
    exact mem_of_mem_pyStrip this
  rw [List.mem_map] at hmem
  obtain ⟨a, _, ha⟩ := hmem
  subst ha
  rw [decide_eq_true_eq]
  unfold replaceInvalid
  by_cases h : a ∈ invalidChars
  · rw [if_pos h]; decide
  · rw [if_neg h]; exact h

/-! ## Dates and `get_target_date` -/

/-- A value of Python's `datetime.date`: proleptic Gregorian calendar date.
`year` is kept as `Int` so that the out-of-range years produced by extreme
month offsets can be talked about. -/
structure Date where
  year : Int
  month : Nat
  day : Nat
deriving DecidableEq

/-- Gregorian leap-year rule used by `datetime.date`. -/
def isLeapYear (y : Int) : Bool :=
  y.emod 4 == 0 && (y.emod 100 != 0 || y.emod 400 == 0)

/-- Number of days of month `m` of year `y` (0 for a month outside 1..12). -/
def daysInMonth (y m : Int) : Int :=
  if m = 2 then (if isLeapYear y then 29 else 28)
  else if m = 4 ∨ m = 6 ∨ m = 9 ∨ m = 11 then 30
  else if 1 ≤ m ∧ m ≤ 12 then 31
  else 0

/-- The `datetime.date(year, month, day)` constructor: `some` exactly when the
arguments form a valid date (CPython additionally requires
`MINYEAR = 1 ≤ year ≤ 9999 = MAXYEAR`); `none` models the raised
`ValueError`. -/
def mkDate (y m d : Int) : Option Date :=
  if 1 ≤ y ∧ y ≤ 9999 ∧ 1 ≤ m ∧ m ≤ 12 ∧ 1 ≤ d ∧ d ≤ daysInMonth y m then
    some ⟨y, m.toNat, d.toNat⟩
  else none

/-- The month-normalisation loops of `get_target_date` (main.py:651-656):
`while month > 12: month -= 12; year += 1` followed by
`while month < 1: month += 12; year -= 1`.  Both loops together map
`(year, month)` to the unique equivalent pair whose month lies in `1..12`,
which is the closed form below; the lemmas `normMonth_step_up`,
`normMonth_step_down` and `normMonth_base` check that this definition
satisfies exactly the loop equations of the source. -/
def normMonth (y m : Int) : Int × Int :=
  (y + (m - 1) / 12, (m - 1) % 12 + 1)

/-- Loop fidelity: one iteration of `while month > 12`. -/
theorem normMonth_step_up {y m : Int} (h : m > 12) :
    normMonth y m = normMonth (y + 1) (m - 12) := by
  unfold normMonth
  have h1 : (m - 1) / 12 = (m - 12 - 1) / 12 + 1 := by omega
  have h2 : (m - 1) % 12 = (m - 12 - 1) % 12 := by omega
  rw [h1, h2]
  rw [Prod.mk.injEq]
  constructor <;> omega

/-- Loop fidelity: one iteration of `while month < 1`. -/
theorem normMonth_step_down {y m : Int} (h : m < 1) :
    normMonth y m = normMonth (y - 1) (m + 12) := by
  unfold normMonth
  have h1 : (m - 1) / 12 = (m + 12 - 1) / 12 - 1 := by omega
  have h2 : (m - 1) % 12 = (m + 12 - 1) % 12 := by omega
  rw [h1, h2]
  rw [Prod.mk.injEq]
  constructor <;> omega

/-- Loop fidelity: both loops are no-ops on a month already in `1..12`. -/
theorem normMonth_base {y m : Int} (h1 : 1 ≤ m) (h2 : m ≤ 12) :
    normMonth y m = (y, m) := by
  unfold normMonth
  have ha : (m - 1) / 12 = 0 := by omega
  have hb : (m - 1) % 12 = m - 1 := by omega
  rw [ha, hb]
  rw [Prod.mk.injEq]
  constructor <;> omega

/-- The month produced by the normalisation loops always lies in `1..12`. -/
theorem normMonth_month_range (y m : Int) :
    1 ≤ (normMonth y m).2 ∧ (normMonth y m).2 ≤ 12 := by
  unfold normMonth
  constructor <;> simp only <;> omega

/-- Every month in `1..12` has at least one day. -/
theorem daysInMonth_pos {y m : Int} (h1 : 1 ≤ m) (h2 : m ≤ 12) :
    1 ≤ daysInMonth y m := by
  unfold daysInMonth
  split
  · split <;> omega
  · split
    · omega
    · split <;> omega

/-- `get_target_date` (main.py:641-661): start from `today`, offset the month
field by `month_offset` and the day field by `day_offset`, normalise the
month into `1..12` carrying into the year, and construct the date; on
`ValueError` fall back to day 1 of the resulting month.  A `none` result
models an exception escaping the function (the fallback construction itself
raising). -/
def get_target_date (today : Date) (month_offset : Int) (day_offset : Int) : Option Date :=
  let ym := normMonth today.year ((today.month : Int) + month_offset)
  let day_ : Int := (today.day : Int) + day_offset
  match mkDate ym.1 ym.2 day_ with
  | some d => some d
  | none => mkDate ym.1 ym.2 1

/-- C2, counterexample to "it never raises an exception": a month offset that
drives the computed year to 0 (below `datetime.MINYEAR`) makes the fallback
`date(year, month, 1)` in the `except` handler raise `ValueError`, modelled
by the `none` result. -/
theorem C2_counterexample :
    get_target_date ⟨2024, 3, 31⟩ (-24288) 0 = none := by decide

/-- C2, amended: for every `month_offset` and `day_offset` such that the
offset-and-normalised year stays within `datetime`'s supported range
`1..9999`, `get_target_date` returns the date with the normalised
year/month, with the day field `today.day + day_offset` when that day is
valid for the resulting month and day 1 otherwise, and raises no
exception. -/
theorem C2_amended_clamps_and_returns (today : Date) (mo do_ : Int)
    (hy1 : 1 ≤ (normMonth today.year ((today.month : Int) + mo)).1)
    (hy2 : (normMonth today.year ((today.month : Int) + mo)).1 ≤ 9999) :
    ∃ d, get_target_date today mo do_ = some d ∧
      d.year = (normMonth today.year ((today.month : Int) + mo)).1 ∧
      (d.month : Int) = (normMonth today.year ((today.month : Int) + mo)).2 ∧
      ((1 ≤ (today.day : Int) + do_ ∧
          (today.day : Int) + do_ ≤
            daysInMonth (normMonth today.year ((today.month : Int) + mo)).1
              (normMonth today.year ((today.month : Int) + mo)).2) →
        (d.day : Int) = (today.day : Int) + do_) ∧
      (¬(1 ≤ (today.day : Int) + do_ ∧
          (today.day : Int) + do_ ≤
            daysInMonth (normMonth today.year ((today.month : Int) + mo)).1
              (normMonth today.year ((today.month : Int) + mo)).2) →
        d.day = 1) := by
  have hm := normMonth_month_range today.year ((today.month : Int) + mo)
  set y := (normMonth today.year ((today.month : Int) + mo)).1 with hydef
  set m := (normMonth today.year ((today.month : Int) + mo)).2 with hmdef
  have hdim : 1 ≤ daysInMonth y m := daysInMonth_pos hm.1 hm.2
  have hgt : get_target_date today mo do_ =
      (match mkDate y m ((today.day : Int) + do_) with
       | some d => some d
       | none => mkDate y m 1) := rfl
  by_cases hday : 1 ≤ (today.day : Int) + do_ ∧
      (today.day : Int) + do_ ≤ daysInMonth y m
  · have hcond : 1 ≤ y ∧ y ≤ 9999 ∧ 1 ≤ m ∧ m ≤ 12 ∧
        1 ≤ (today.day : Int) + do_ ∧
        (today.day : Int) + do_ ≤ daysInMonth y m :=
      ⟨hy1, hy2, hm.1, hm.2, hday.1, hday.2⟩
    have hmk : mkDate y m ((today.day : Int) + do_) =
        some ⟨y, m.toNat, ((today.day : Int) + do_).toNat⟩ := by
      unfold mkDate
      rw [if_pos hcond]
    rw [hgt, hmk]
    refine ⟨_, rfl, rfl, ?_, ?_, ?_⟩
    · simp only
      omega
    · intro _
      simp only
      omega
    · intro hcon
      exact absurd hday hcon
  · have hcond : ¬(1 ≤ y ∧ y ≤ 9999 ∧ 1 ≤ m ∧ m ≤ 12 ∧
        1 ≤ (today.day : Int) + do_ ∧
        (today.day : Int) + do_ ≤ daysInMonth y m) := by
      intro hc
      exact hday ⟨hc.2.2.2.2.1, hc.2.2.2.2.2⟩
    have hmk : mkDate y m ((today.day : Int) + do_) = none := by
      unfold mkDate
      rw [if_neg hcond]
    have hcond1 : 1 ≤ y ∧ y ≤ 9999 ∧ 1 ≤ m ∧ m ≤ 12 ∧
        (1 : Int) ≤ 1 ∧ (1 : Int) ≤ daysInMonth y m :=
      ⟨hy1, hy2, hm.1, hm.2, le_refl 1, hdim⟩
    have hmk1 : mkDate y m 1 = some ⟨y, m.toNat, (1 : Int).toNat⟩ := by
      unfold mkDate
      rw [if_pos hcond1]
    rw [hgt, hmk, hmk1]
    refine ⟨_, rfl, rfl, ?_, ?_, ?_⟩
    · simp only
      omega
    · intro hc
      exact absurd hc hday
    · intro _
      rfl

/-- C2, witness: evaluated on 2024-03-31 with `month_offset = -1` and
`day_offset = 0`, `get_target_date` returns 2024-02-01 (Feb 31 is invalid,
so the clamp-to-first-of-month fallback fires). -/
theorem C2_witness :
    get_target_date ⟨2024, 3, 31⟩ (-1) 0 = some ⟨2024, 2, 1⟩ ∧
    (1 ≤ (normMonth (2024 : Int) (((3 : Nat) : Int) + (-1))).1 ∧
      (normMonth (2024 : Int) (((3 : Nat) : Int) + (-1))).1 ≤ 9999) ∧
    ∃ d, get_target_date ⟨2024, 3, 31⟩ (-1) 0 = some d ∧ d.day = 1 := by
  refine ⟨by decide, ⟨by decide, by decide⟩, ?_⟩
  obtain ⟨d, h1, _, _, _, h5⟩ :=
    C2_amended_clamps_and_returns ⟨2024, 3, 31⟩ (-1) 0 (by decide) (by decide)
  exact ⟨d, h1, h5 (by decide)⟩

/-! ## Invoice classifier: rule table, filename parsing, sequence numbers -/

/-- `target_date.strftime('%B')`: English month name (C locale). -/
def monthName (m : Nat) : String :=
  match m with
  | 1 => "January"
  | 2 => "February"
  | 3 => "March"
  | 4 => "April"
  | 5 => "May"
  | 6 => "June"
  | 7 => "July"
  | 8 => "August"
  | 9 => "September"
  | 10 => "October"
  | 11 => "November"
  | 12 => "December"
  | _ => ""

/-- `os.path.splitext` on a plain file name (no directory separators appear in
the names handled here): the extension starts at the last dot, except that
leading dots of the name never start an extension. -/
def splitext (s : String) : String × String :=
  let l := s.data
  let lead := (l.takeWhile (fun c => c == '.')).length
  let body := l.drop lead
  match body.reverse.findIdx? (fun c => c == '.') with
  | none => (s, "")
  | some k =>
    let cut := lead + (body.length - 1 - k)
    (String.mk (l.take cut), String.mk (l.drop cut))

/-- Character class `[a-zA-Z0-9_.+-]` (local part of `email_pattern`). -/
def isLocalChar (c : Char) : Bool :=
  c.isAlphanum || c == '_' || c == '.' || c == '+' || c == '-'

/-- Character class `[a-zA-Z0-9-]` (first domain label of `email_pattern`). -/
def isDomainChar (c : Char) : Bool :=
  c.isAlphanum || c == '-'

/-- Character class `[a-zA-Z0-9-.]` (rest of the domain of `email_pattern`). -/
def isDomainRestChar (c : Char) : Bool :=
  c.isAlphanum || c == '-' || c == '.'

/-- `re.match(email_pattern, filename)` for
`email_pattern = r'^([a-zA-Z0-9_.+-]+@[a-zA-Z0-9-]+\.[a-zA-Z0-9-.]+)_'`
(main.py:591), returning `group(1)`.  Each character class excludes the
literal that follows it in the pattern, so the regex engine's greedy
matching with backtracking coincides with maximal munch, which is what this
function implements. -/
def extractEmail (s : String) : Option String :=
  let l := s.data
  let loc := l.takeWhile isLocalChar
  if loc.isEmpty then none
  else
    match l.drop loc.length with
    | '@' :: r1 =>
      let d1 := r1.takeWhile isDomainChar
      if d1.isEmpty then none
      else
        match r1.drop d1.length with
        | '.' :: r2 =>
          let d2 := r2.takeWhile isDomainRestChar
          if d2.isEmpty then none
          else
            match r2.drop d2.length with
            | '_' :: _ => some (String.mk (loc ++ '@' :: (d1 ++ '.' :: d2)))
            | _ => none
        | _ => none
    | _ => none

/-- ASCII word character, for the `\b` boundary in the sequence-number
pattern. -/
def isWordChar (c : Char) : Bool :=
  c.isAlphanum || c == '_'

/-- Numeric value of a digit string (`int(m.group(1))`). -/
def digitsVal (l : List Char) : Nat :=
  l.foldl (fun a c => a * 10 + (c.toNat - 48)) 0

/-- `re.compile(r'^{}-(\d+)\b'.format(re.escape(company_name))).match(f)`
(main.py:708-713), returning `int(group(1))` on a match.  The greedy `\d+`
followed by `\b` matches exactly when the maximal digit run after
`<company_name>-` is nonempty and followed by a non-word character or the
end of the string, and the captured group is that maximal run. -/
def matchSeqNum (cn : String) (f : String) : Option Nat :=
  let p := cn.data ++ ['-']
  let l := f.data
  if l.take p.length = p then
    let rest := l.drop p.length
    let ds := rest.takeWhile Char.isDigit
    if ds.isEmpty then none
    else
      match rest.drop ds.length with
      | [] => some (digitsVal ds)
      | c :: _ => if isWordChar c then none else some (digitsVal ds)
  else none

/-- Python `max(numbers, default=d)`: `d` only when the list is empty. -/
def pyMaxDefault (l : List Nat) (d : Nat) : Nat :=
  match l with
  | [] => d
  | x :: xs => xs.foldl max x

/-- Sequence-number computation of `process_files` (main.py:707-714): collect
`int(group(1))` over the directory listing, then `max(numbers, default=0) + 1`. -/
def nextNumber (cn : String) (existing : List String) : Nat :=
  pyMaxDefault (existing.filterMap (matchSeqNum cn)) 0 + 1

/-- The per-sender rename rule built by `load_companies_from_json`
(main.py:631-638). -/
structure Rule where
  name : String
  folder_name : String
  month_offset : Int
  day_offset : Int
  use_subfolder : Bool
  numbered_files : Bool
deriving DecidableEq

/-- One JSON object of `invoices_config.json`; `none` models an absent key
(or a JSON `null`, which `dict.get` also maps through the `or` defaults). -/
structure ConfigEntry where
  sender_email : Option String
  folder_name : Option String
  file_name : Option String
  month_offset : Option Int
  day_offset : Option Int
deriving DecidableEq

/-- The dictionary key for an entry: `item.get('sender_email', '').lower()`. -/
def entrySender (it : ConfigEntry) : String :=
  pyLower (it.sender_email.getD "")

/-- The rule value stored for an entry (main.py:623-638):
`folder_name = item.get('folder_name') or ''`,
`file_name = item.get('file_name') or 'NoName'`, offsets default to 0,
`use_sub = bool(folder_name)`, `numbered_files` always `True`. -/
def entryRule (it : ConfigEntry) : Rule :=
  let folderName := it.folder_name.getD ""
  let fileName := if it.file_name.getD "" = "" then "NoName" else it.file_name.getD ""
  { name := fileName
    folder_name := folderName
    month_offset := it.month_offset.getD 0
    day_offset := it.day_offset.getD 0
    use_subfolder := folderName != ""
    numbered_files := true }

/-- `load_companies_from_json` (main.py:621-639): fold the entry list into a
dictionary keyed by lowercased sender email; `result[sender] = {...}` lets a
later entry overwrite an earlier one with the same key. -/
def load_companies_from_json (data : List ConfigEntry) : String → Option Rule :=
  data.foldl
    (fun acc it => fun k => if k = entrySender it then some (entryRule it) else acc k)
    (fun _ => none)

/-! ## Invoice classifier: filesystem model and `process_files` -/

/-- An entry of `os.listdir(base_dir)` together with its `os.path.isfile`
status. -/
structure DirEntry where
  name : String
  isFile : Bool
deriving DecidableEq

/-- The filesystem fragment `process_files` touches: the landing directory
listing and the target folders, keyed by their path components below
`base_dir` (`[year, month]` or `[year, month, subfolder]`), each with its
listing. -/
structure FS where
  base : List DirEntry
  folders : List (List String × List String)
deriving DecidableEq

/-- Contents of a target folder, `none` when the directory does not exist. -/
def getFolder (fs : FS) (p : List String) : Option (List String) :=
  (fs.folders.find? (fun q => q.1 == p)).map (fun q => q.2)

/-- `os.makedirs(target_folder, exist_ok=True)`: create the directory (empty)
if absent, change nothing otherwise. -/
def ensureDir (fs : FS) (p : List String) : FS :=
  if (getFolder fs p).isSome then fs
  else { fs with folders := fs.folders ++ [(p, [])] }

/-- Append a file name to a target folder's listing. -/
def addToFolder (fs : FS) (p : List String) (n : String) : FS :=
  { fs with folders := fs.folders.map (fun q => if q.1 == p then (q.1, q.2 ++ [n]) else q) }

/-- Remove a name from the landing-directory listing. -/
def removeFromBase (fs : FS) (name : String) : FS :=
  { fs with base := fs.base.filter (fun e => !(e.name == name)) }

/-- `shutil.move(file_path, new_file_path)`: the source leaves the landing
directory and the new name appears in the target folder. -/
def moveFile (fs : FS) (src : String) (p : List String) (n : String) : FS :=
  addToFolder (removeFromBase fs src) p n

/-- Per-file diagnostic of `process_files` (its `print` calls) plus the move
outcome. -/
inductive Report where
  | skipNonFile (name : String)
  | noEmail (name : String)
  | unknownSender (email : String)
  | conflict (path : List String) (fname : String)
  | moved (path : List String) (n : Nat) (fname : String)
  | movedPlain (path : List String) (fname : String)
deriving DecidableEq

/-- Target folder path of a rule for a target date (main.py:695-701). -/
def targetFolder (r : Rule) (td : Date) : List String :=
  if r.use_subfolder && (r.folder_name != "") then
    [toString td.year, monthName td.month, r.folder_name]
  else
    [toString td.year, monthName td.month]

/-- The destination file name (main.py:705-717): `<name>-<n><ext>` for a
numbered rule, `<name><ext>` otherwise. -/
def destName (r : Rule) (existing : List String) (ext : String) : String :=
  if r.numbered_files then
    r.name ++ "-" ++ toString (nextNumber r.name existing) ++ ext
  else
    r.name ++ ext

/-- The body of the `for filename in os.listdir(base_dir)` loop of
`process_files` (main.py:670-725) for one directory entry.  `.error ()`
models an exception escaping the loop body (the only possible one in this
model: `get_target_date` raising on an out-of-range year; the loop has no
per-file `try`). -/
def processOneFile (companies : String → Option Rule) (today : Date)
    (fs : FS) (e : DirEntry) : Except Unit (FS × Report) :=
  if e.isFile then
    match extractEmail e.name with
    | none => .ok (fs, .noEmail e.name)
    | some em0 =>
      let em := pyLower em0
      match companies em with
      | none => .ok (fs, .unknownSender em)
      | some r =>
        match get_target_date today r.month_offset r.day_offset with
        | none => .error ()
        | some td =>
          let tf := targetFolder r td
          let fs1 := ensureDir fs tf
          let ext := (splitext e.name).2
          let existing := (getFolder fs1 tf).getD []
          let nm := destName r existing ext
          if nm ∈ existing then .ok (fs1, .conflict tf nm)
          else
            .ok (moveFile fs1 e.name tf nm,
              if r.numbered_files then .moved tf (nextNumber r.name existing) nm
              else .movedPlain tf nm)
  else .ok (fs, .skipNonFile e.name)

/-- The loop of `process_files` over a (snapshot) listing: each entry is
handled in turn, threading the filesystem; an exception aborts the whole
run. -/
def processFilesGo (companies : String → Option Rule) (today : Date)
    (fs : FS) : List DirEntry → Except Unit (FS × List Report)
  | [] => .ok (fs, [])
  | e :: es =>
    match processOneFile companies today fs e with
    | .error u => .error u
    | .ok (fs', rep) =>
      match processFilesGo companies today fs' es with
      | .error u => .error u
      | .ok (fs'', reps) => .ok (fs'', rep :: reps)

/-- `process_files` (main.py:663-725): reload the rule table from the JSON
entries, then run the loop over the landing-directory listing taken at entry
to the loop. -/
def process_files (data : List ConfigEntry) (today : Date) (fs : FS) :
    Except Unit (FS × List Report) :=
  processFilesGo (load_companies_from_json data) today fs fs.base

/-! ## Classifier lemmas and claims C5, C6, C7, C9 -/

/-- A fold over `max` starting at `x` computes `d` when `d` bounds `x` and
every list element and is attained. -/
theorem foldl_max_eq : ∀ {xs : List Nat} {x d : Nat},
    (d = x ∨ d ∈ xs) → x ≤ d → (∀ y ∈ xs, y ≤ d) → xs.foldl max x = d := by
  intro xs
  induction xs with
  | nil =>
    intro x d hmem hx _
    have : d = x := by
      cases hmem with
      | inl h => exact h
      | inr h => exact absurd h (by simp)
    simp [List.foldl_nil, this]
  | cons y ys ih =>
    intro x d hmem hx hall
    have hy : y ≤ d := hall y (List.mem_cons_self y ys)
    have hall2 : ∀ z ∈ ys, z ≤ d := fun z hz => hall z (List.mem_cons_of_mem _ hz)
    have hmax : max x y ≤ d := max_le hx hy
    have hmem2 : d = max x y ∨ d ∈ ys := by
      cases hmem with
      | inl h =>
        left
        have : x ≤ max x y := le_max_left x y
        omega
      | inr h =>
        rcases List.mem_cons.mp h with h1 | h2
        · left
          have : y ≤ max x y := le_max_right x y
          omega
        · right
          exact h2
    rw [List.foldl_cons]
    exact ih hmem2 hmax hall2

/-- When no file of the listing matches the pattern, the next sequence number
defaults to 1. -/
theorem nextNumber_of_no_match {cn : String} {existing : List String}
    (h : ∀ f ∈ existing, matchSeqNum cn f = none) : nextNumber cn existing = 1 := by
  unfold nextNumber
  have hnil : existing.filterMap (matchSeqNum cn) = [] := by
    rw [List.filterMap_eq_nil_iff]
    exact h
  rw [hnil]
  rfl

/-- When `d` is the largest matched number of the listing, the next sequence
number is `d + 1`. -/
theorem nextNumber_of_max {cn : String} {existing : List String} {d : Nat}
    (h1 : ∃ f ∈ existing, matchSeqNum cn f = some d)
    (h2 : ∀ f ∈ existing, ∀ d2, matchSeqNum cn f = some d2 → d2 ≤ d) :
    nextNumber cn existing = d + 1 := by
  unfold nextNumber
  have hd : d ∈ existing.filterMap (matchSeqNum cn) := by
    rw [List.mem_filterMap]
    obtain ⟨f, hf, hm⟩ := h1
    exact ⟨f, hf, hm⟩
  have hb : ∀ z ∈ existing.filterMap (matchSeqNum cn), z ≤ d := by
    intro z hz
    rw [List.mem_filterMap] at hz
    obtain ⟨f, hf, hm⟩ := hz
    exact h2 f hf z hm
  cases hex : existing.filterMap (matchSeqNum cn) with
  | nil =>
    rw [hex] at hd
    exact absurd hd (by simp)
  | cons x xs =>
    rw [hex] at hd hb
    have hx : x ≤ d := hb x (List.mem_cons_self x xs)
    have hmem : d = x ∨ d ∈ xs := by
      rcases List.mem_cons.mp hd with h | h
      · exact Or.inl h
      · exact Or.inr h
    have hfold : xs.foldl max x = d :=
      foldl_max_eq hmem hx (fun y hy => hb y (List.mem_cons_of_mem _ hy))
    show xs.foldl max x + 1 = d + 1
    rw [hfold]

/-- `makedirs` is the identity when the directory already exists. -/
theorem ensureDir_of_exists {fs : FS} {p : List String}
    (h : (getFolder fs p).isSome) : ensureDir fs p = fs := by
  unfold ensureDir
  rw [if_pos h]

/-- The listing that `process_files` scans after `makedirs` coincides with
the listing of the (possibly absent) target folder before it: a freshly
created folder is empty. -/
theorem getFolder_ensureDir_getD (fs : FS) (p : List String) :
    (getFolder (ensureDir fs p) p).getD [] = (getFolder fs p).getD [] := by
  unfold ensureDir
  by_cases h : (getFolder fs p).isSome
  · rw [if_pos h]
  · rw [if_neg h]
    have hnone : getFolder fs p = none := by
      cases hx : getFolder fs p
      · rfl
      · rw [hx] at h; exact absurd rfl h
    unfold getFolder at hnone ⊢
    rw [List.find?_append]
    have : fs.folders.find? (fun q => q.1 == p) = none := by
      cases hx : fs.folders.find? (fun q => q.1 == p)
      · rfl
      · rw [hx] at hnone; simp at hnone
    rw [this]
    simp [hnone]

/-- Folding the dictionary updates over an arbitrary starting table: the
lookup result is the last matching entry, falling back to the starting
table. -/
theorem foldl_companies :
    ∀ (l : List ConfigEntry) (acc : String → Option Rule) (s : String),
      (l.foldl
        (fun acc it => fun k => if k = entrySender it then some (entryRule it) else acc k)
        acc) s =
      (match (l.filter (fun it => entrySender it == s)).getLast? with
       | some it => some (entryRule it)
       | none => acc s) := by
  intro l
  induction l with
  | nil => intro acc s; rfl
  | cons it l ih =>
    intro acc s
    rw [List.foldl_cons, ih]
    rw [List.filter_cons]
    cases hF : (l.filter (fun it => entrySender it == s)).getLast? with
    | some e =>
      have hne : l.filter (fun it => entrySender it == s) ≠ [] := by
        intro hnil
        rw [hnil] at hF
        exact absurd hF (by simp)
      by_cases hp : (entrySender it == s) = true
      · rw [if_pos hp]
        cases hFl : l.filter (fun it => entrySender it == s) with
        | nil => exact absurd hFl hne
        | cons f fs =>
          rw [List.getLast?_cons_cons]
          rw [hFl] at hF
          rw [hF]
      · rw [if_neg hp, hF]
    | none =>
      have hnil : l.filter (fun it => entrySender it == s) = [] :=
        List.getLast?_eq_none_iff.mp hF
      by_cases hp : (entrySender it == s) = true
      · rw [if_pos hp, hnil]
        have hs : s = entrySender it := (beq_iff_eq.mp hp).symm
        rw [if_pos hs]
        simp
      · rw [if_neg hp, hnil]
        have hs : ¬s = entrySender it := by
          intro hc
          exact hp (beq_iff_eq.mpr hc.symm)
        rw [if_neg hs]
        simp

/-- C9: when the rule file contains several entries with the same lowercased
`sender_email`, the table built by `load_companies_from_json` maps that
sender to the rule of the last such entry in file order (`result[sender] =
...` overwrites), and earlier duplicate entries have no effect on the
result. -/
theorem C9_last_duplicate_entry_wins (data : List ConfigEntry) (s : String) :
    load_companies_from_json data s =
      ((data.filter (fun it => entrySender it == s)).getLast?).map entryRule := by
  unfold load_companies_from_json
  rw [foldl_companies]
  cases h : (data.filter (fun it => entrySender it == s)).getLast? <;> simp

/-- Unfolding the loop of `process_files` one entry at a time: when the entry
is handled without an exception, the run continues on the remaining entries
with the updated filesystem, and the entry's report is prepended. -/
theorem processFilesGo_cons_ok {companies : String → Option Rule} {today : Date}
    {fs fs2 : FS} {e : DirEntry} {rep : Report} {rest : List DirEntry}
    (h : processOneFile companies today fs e = .ok (fs2, rep)) :
    processFilesGo companies today fs (e :: rest) =
      (processFilesGo companies today fs2 rest).map (fun pr => (pr.1, rep :: pr.2)) := by
  have hred : processFilesGo companies today fs (e :: rest) =
      match processFilesGo companies today fs2 rest with
      | .error u => .error u
      | .ok (fs2, reps) => .ok (fs2, rep :: reps) := by
    show (match processOneFile companies today fs e with
          | .error u => (Except.error u : Except Unit (FS × List Report))
          | .ok (fs', rep2) =>
            match processFilesGo companies today fs' rest with
            | .error u => .error u
            | .ok (fs2, reps) => .ok (fs2, rep2 :: reps)) = _
    rw [h]
  rw [hred]
  cases hrest : processFilesGo companies today fs2 rest with
  | error u => rfl
  | ok pr => rfl

/-- C7: a landing file whose name has no leading email-address match, or
whose extracted lowercased address has no entry in the rule table, is left
in place unchanged (the filesystem is passed on untouched), is reported, and
processing continues with the remaining files. -/
theorem C7_unmatched_files_untouched (companies : String → Option Rule) (today : Date)
    (fs : FS) (e : DirEntry) (rest : List DirEntry) (hf : e.isFile = true) :
    (extractEmail e.name = none →
      processOneFile companies today fs e = .ok (fs, .noEmail e.name) ∧
      processFilesGo companies today fs (e :: rest) =
        (processFilesGo companies today fs rest).map
          (fun pr => (pr.1, Report.noEmail e.name :: pr.2))) ∧
    (∀ em, extractEmail e.name = some em → companies (pyLower em) = none →
      processOneFile companies today fs e = .ok (fs, .unknownSender (pyLower em)) ∧
      processFilesGo companies today fs (e :: rest) =
        (processFilesGo companies today fs rest).map
          (fun pr => (pr.1, Report.unknownSender (pyLower em) :: pr.2))) := by
  constructor
  · intro hx
    have h1 : processOneFile companies today fs e = .ok (fs, .noEmail e.name) := by
      unfold processOneFile
      rw [if_pos hf, hx]
    exact ⟨h1, processFilesGo_cons_ok h1⟩
  · intro em hx hc
    have h1 : processOneFile companies today fs e = .ok (fs, .unknownSender (pyLower em)) := by
      unfold processOneFile
      rw [if_pos hf, hx]
      simp only [hc]
    exact ⟨h1, processFilesGo_cons_ok h1⟩

/-- C7, witness: a file with no leading email address and a file whose sender
is not in the rule table are both left in place and reported, and the run
continues. -/
theorem C7_witness :
    ((⟨"readme.txt", true⟩ : DirEntry).isFile = true ∧
      extractEmail "readme.txt" = none ∧
      processOneFile (fun _ => none) ⟨2024, 3, 15⟩ ⟨[], []⟩ ⟨"readme.txt", true⟩ =
        .ok (⟨[], []⟩, .noEmail "readme.txt")) ∧
    (extractEmail "bob@y.com_x.pdf" = some "bob@y.com" ∧
      (fun (_ : String) => (none : Option Rule)) "bob@y.com" = none ∧
      processOneFile (fun _ => none) ⟨2024, 3, 15⟩ ⟨[], []⟩ ⟨"bob@y.com_x.pdf", true⟩ =
        .ok (⟨[], []⟩, .unknownSender "bob@y.com")) := by
  constructor
  · refine ⟨rfl, by decide, ?_⟩
    exact ((C7_unmatched_files_untouched (fun _ => none) ⟨2024, 3, 15⟩ ⟨[], []⟩
      ⟨"readme.txt", true⟩ [] rfl).1 (by decide)).1
  · refine ⟨by decide, rfl, ?_⟩
    have h := ((C7_unmatched_files_untouched (fun _ => none) ⟨2024, 3, 15⟩ ⟨[], []⟩
      ⟨"bob@y.com_x.pdf", true⟩ [] rfl).2 "bob@y.com" (by decide) rfl).1
    have hlow : pyLower "bob@y.com" = "bob@y.com" := by decide
    rw [hlow] at h
    exact h

/-- C6: when the computed destination name already exists in the target
folder, `process_files` skips the file and reports the conflict: the
filesystem is returned unchanged (the source file is not moved or deleted
and the existing destination file is not overwritten), and no alternative
sequence number is tried (the reported name is the unique computed one). -/
theorem C6_existing_destination_skipped (companies : String → Option Rule)
    (today : Date) (fs : FS) (e : DirEntry) (em : String) (r : Rule) (td : Date)
    (hf : e.isFile = true)
    (hx : extractEmail e.name = some em)
    (hr : companies (pyLower em) = some r)
    (ht : get_target_date today r.month_offset r.day_offset = some td)
    (hmem : destName r ((getFolder fs (targetFolder r td)).getD []) (splitext e.name).2
      ∈ (getFolder fs (targetFolder r td)).getD []) :
    processOneFile companies today fs e =
      .ok (fs, .conflict (targetFolder r td)
        (destName r ((getFolder fs (targetFolder r td)).getD []) (splitext e.name).2)) := by
  have hsome : (getFolder fs (targetFolder r td)).isSome := by
    cases hgf : getFolder fs (targetFolder r td) with
    | none =>
      rw [hgf] at hmem
      exact absurd hmem (by simp)
    | some l => rfl
  have hens : ensureDir fs (targetFolder r td) = fs := ensureDir_of_exists hsome
  unfold processOneFile
  rw [if_pos hf, hx]
  simp only [hr, ht, hens]
  rw [if_pos hmem]

/-- C6, witness: with a plain (non-numbered) rule whose destination
`Bob.pdf` already exists in `2024/March`, the source file stays in the
landing directory, nothing is overwritten, and the conflict is reported. -/
theorem C6_witness :
    extractEmail "bob@y.com_Inv_20240101_7_a.pdf" = some "bob@y.com" ∧
    get_target_date ⟨2024, 3, 15⟩ 0 0 = some ⟨2024, 3, 15⟩ ∧
    "Bob.pdf" ∈ ["Bob.pdf"] ∧
    processOneFile
      (fun s => if s = "bob@y.com" then some ⟨"Bob", "", 0, 0, false, false⟩ else none)
      ⟨2024, 3, 15⟩
      ⟨[⟨"bob@y.com_Inv_20240101_7_a.pdf", true⟩], [(["2024", "March"], ["Bob.pdf"])]⟩
      ⟨"bob@y.com_Inv_20240101_7_a.pdf", true⟩ =
      .ok (⟨[⟨"bob@y.com_Inv_20240101_7_a.pdf", true⟩], [(["2024", "March"], ["Bob.pdf"])]⟩,
        .conflict ["2024", "March"] "Bob.pdf") := by
  refine ⟨by decide, by decide, by decide, ?_⟩
  have h := C6_existing_destination_skipped
    (fun s => if s = "bob@y.com" then some ⟨"Bob", "", 0, 0, false, false⟩ else none)
    ⟨2024, 3, 15⟩
    ⟨[⟨"bob@y.com_Inv_20240101_7_a.pdf", true⟩], [(["2024", "March"], ["Bob.pdf"])]⟩
    ⟨"bob@y.com_Inv_20240101_7_a.pdf", true⟩ "bob@y.com" ⟨"Bob", "", 0, 0, false, false⟩
    ⟨2024, 3, 15⟩ rfl (by decide) (by decide) (by decide) (by decide)
  exact h

/-- C5: for every file the classifier moves under a numbered rule, the
assigned sequence number `n` equals 1 plus the maximum of the integers
matched by the `<prefix>-<digits>` pattern over the existing filenames of
the exact target folder, and equals 1 when no filename there matches. -/
theorem C5_assigned_sequence_number (companies : String → Option Rule)
    (today : Date) (fs : FS) (e : DirEntry) (em : String) (r : Rule)
    (fs' : FS) (tf : List String) (n : Nat) (nm : String)
    (hx : extractEmail e.name = some em)
    (hr : companies (pyLower em) = some r)
    (hstep : processOneFile companies today fs e = .ok (fs', .moved tf n nm)) :
    ((∀ f ∈ (getFolder fs tf).getD [], matchSeqNum r.name f = none) → n = 1) ∧
    (∀ d, (∃ f ∈ (getFolder fs tf).getD [], matchSeqNum r.name f = some d) →
      (∀ f ∈ (getFolder fs tf).getD [], ∀ d2, matchSeqNum r.name f = some d2 → d2 ≤ d) →
      n = d + 1) := by
  unfold processOneFile at hstep
  by_cases hf : e.isFile = true
  · rw [if_pos hf, hx] at hstep
    simp only [hr] at hstep
    cases ht : get_target_date today r.month_offset r.day_offset with
    | none =>
      rw [ht] at hstep
      exact absurd hstep (by simp)
    | some td =>
      rw [ht] at hstep
      simp only at hstep
      by_cases hmem : destName r ((getFolder (ensureDir fs (targetFolder r td))
          (targetFolder r td)).getD []) (splitext e.name).2
          ∈ (getFolder (ensureDir fs (targetFolder r td)) (targetFolder r td)).getD []
      · rw [if_pos hmem] at hstep
        have hinj := Except.ok.inj hstep
        have hrep : Report.conflict (targetFolder r td)
            (destName r ((getFolder (ensureDir fs (targetFolder r td))
              (targetFolder r td)).getD []) (splitext e.name).2) = .moved tf n nm :=
          congrArg Prod.snd hinj
        exact absurd hrep (by simp)
      · rw [if_neg hmem] at hstep
        by_cases hnum : r.numbered_files = true
        · rw [if_pos hnum] at hstep
          have hinj := Except.ok.inj hstep
          have hrep : Report.moved (targetFolder r td)
              (nextNumber r.name ((getFolder (ensureDir fs (targetFolder r td))
                (targetFolder r td)).getD []))
              (destName r ((getFolder (ensureDir fs (targetFolder r td))
                (targetFolder r td)).getD []) (splitext e.name).2) = .moved tf n nm :=
            congrArg Prod.snd hinj
          obtain ⟨htf, hn, _⟩ := Report.moved.inj hrep
          rw [getFolder_ensureDir_getD, htf] at hn
          constructor
          · intro hnone
            rw [← hn]
            exact nextNumber_of_no_match hnone
          · intro d h1 h2
            rw [← hn]
            exact nextNumber_of_max h1 h2
        · rw [if_neg hnum] at hstep
          have hinj := Except.ok.inj hstep
          have hrep : Report.movedPlain (targetFolder r td)
              (destName r ((getFolder (ensureDir fs (targetFolder r td))
                (targetFolder r td)).getD []) (splitext e.name).2) = .moved tf n nm :=
            congrArg Prod.snd hinj
          exact absurd hrep (by simp)
  · rw [if_neg hf] at hstep
    have hinj := Except.ok.inj hstep
    have hrep : Report.skipNonFile e.name = .moved tf n nm := congrArg Prod.snd hinj
    exact absurd hrep (by simp)

/-- C5, witness: moving
`alice@x.com_Invoice_20240101_55_receipt.pdf` under rule `Alice` into
`2024/March` whose listing is `["Alice-3.pdf", "junk"]` assigns sequence
number `4 = 3 + 1`. -/
theorem C5_witness :
    extractEmail "alice@x.com_Invoice_20240101_55_receipt.pdf" = some "alice@x.com" ∧
    processOneFile
      (fun s => if s = "alice@x.com" then some ⟨"Alice", "", 0, 0, false, true⟩ else none)
      ⟨2024, 3, 15⟩
      ⟨[⟨"alice@x.com_Invoice_20240101_55_receipt.pdf", true⟩],
        [(["2024", "March"], ["Alice-3.pdf", "junk"])]⟩
      ⟨"alice@x.com_Invoice_20240101_55_receipt.pdf", true⟩ =
      .ok (⟨[], [(["2024", "March"], ["Alice-3.pdf", "junk", "Alice-4.pdf"])]⟩,
        .moved ["2024", "March"] 4 "Alice-4.pdf") ∧
    (4 : Nat) = 3 + 1 := by
  have hstep : processOneFile
      (fun s => if s = "alice@x.com" then some ⟨"Alice", "", 0, 0, false, true⟩ else none)
      ⟨2024, 3, 15⟩
      ⟨[⟨"alice@x.com_Invoice_20240101_55_receipt.pdf", true⟩],
        [(["2024", "March"], ["Alice-3.pdf", "junk"])]⟩
      ⟨"alice@x.com_Invoice_20240101_55_receipt.pdf", true⟩ =
      .ok (⟨[], [(["2024", "March"], ["Alice-3.pdf", "junk", "Alice-4.pdf"])]⟩,
        .moved ["2024", "March"] 4 "Alice-4.pdf") := by decide
  refine ⟨by decide, hstep, ?_⟩
  have hc5 := C5_assigned_sequence_number
    (fun s => if s = "alice@x.com" then some ⟨"Alice", "", 0, 0, false, true⟩ else none)
    ⟨2024, 3, 15⟩
    ⟨[⟨"alice@x.com_Invoice_20240101_55_receipt.pdf", true⟩],
      [(["2024", "March"], ["Alice-3.pdf", "junk"])]⟩
    ⟨"alice@x.com_Invoice_20240101_55_receipt.pdf", true⟩ "alice@x.com"
    ⟨"Alice", "", 0, 0, false, true⟩ _ _ _ _ (by decide) (by decide) hstep
  refine hc5.2 3 ⟨"Alice-3.pdf", by decide, by decide⟩ ?_
  intro f hf d2 hm
  have hf2 : f ∈ ["Alice-3.pdf", "junk"] := hf
  rcases List.mem_cons.mp hf2 with h1 | h2
  · subst h1
    have hval : matchSeqNum "Alice" "Alice-3.pdf" = some 3 := by decide
    rw [hval] at hm
    have := Option.some.inj hm
    omega
  · have h3 : f = "junk" := by
      rcases List.mem_cons.mp h2 with ha | hb
      · exact ha
      · exact absurd hb (by simp)
    subst h3
    have hval : matchSeqNum "Alice" "junk" = none := by decide
    rw [hval] at hm
    exact absurd hm (by simp)

/-! ## Mail poller: downloader state and `check_emails` -/

/-- One attachment of a fetched message (`att.filename`; the payload bytes
play no role in the modelled behaviour). -/
structure Attachment where
  filename : String
deriving DecidableEq

/-- A fetched message: `msg.uid` (stringified), `msg.subject` (empty string
standing for a missing/empty subject, which Python treats as falsy),
`msg.from_`, and its attachments. -/
structure EmailMsg where
  uid : String
  subject : String
  from_ : String
  attachments : List Attachment
deriving DecidableEq

/-- Backoff/polling configuration of `EmailAttachmentDownloader.__init__`
(main.py:254-261). -/
structure BackoffCfg where
  initial_backoff : Nat
  backoff_factor : Nat
  max_backoff : Nat
  polling_interval : Nat
deriving DecidableEq

/-- The mutable state of `EmailAttachmentDownloader` that `check_emails` and
`save_processed_uid` touch: the in-memory processed-UID set (as a
duplicate-free list), the ledger file contents (`processed_uids.txt` lines),
the download-folder listing, the trace of successful attachment writes this
run (tagged with the UID of the message being processed), the log, the
backoff state, the timer interval in milliseconds, and the pause flag.
`dateStr`/`nowTs` are the `datetime.now()` snapshots used in filenames. -/
structure DState where
  processed : List String
  ledger : List String
  dir : List String
  writes : List (String × String)
  log : List String
  failure_count : Nat
  current_backoff : Nat
  timer : Nat
  paused : Bool
  dateStr : String
  nowTs : String
deriving DecidableEq

/-- Python `set.add`: append only when absent. -/
def addSet (l : List String) (u : String) : List String :=
  if u ∈ l then l else l ++ [u]

/-- `EmailAttachmentDownloader.save_processed_uid` (main.py:345-353): append
the UID to the ledger file and only then add it to the in-memory set, inside
a `try` whose handler logs the error; `ok` says whether the file
open/write succeeds.  The result is always `.ok`: the `except` swallows the
exception, so nothing propagates to the caller. -/
def save_processed_uid (ok : Bool) (st : DState) (uid : String) : Except String DState :=
  match (if ok then
          Except.ok { st with ledger := st.ledger ++ [uid],
                              processed := addSet st.processed uid }
         else Except.error "write failed") with
  | .ok st1 => .ok { st1 with log := st1.log ++ ["Saved processed UID: " ++ uid] }
  | .error e => .ok { st with log := st.log ++ ["Failed to save processed UID " ++ uid ++ ": " ++ e] }

/-- The state `check_emails` continues with after calling
`save_processed_uid` (the call always returns normally). -/
def savePU (ok : Bool) (st : DState) (uid : String) : DState :=
  match save_processed_uid ok st uid with
  | .ok st1 => st1
  | .error _ => st

/-- The write attempt of the attachment loop (main.py:461-468): the file is
written inside a `try` that logs and skips on failure; `aOk` says whether
the write of a given file name succeeds; a successful write appends the name
to the downloads folder and is counted in `new_attachments` (modelled by the
`writes` trace). -/
def writeAttachment (aOk : String → Bool) (uid fname : String) (st : DState) : DState :=
  if aOk fname then
    { st with dir := st.dir ++ [fname],
              writes := st.writes ++ [(uid, fname)],
              log := st.log ++ ["Downloaded: " ++ fname] }
  else
    { st with log := st.log ++ ["Failed saving " ++ fname] }

/-- The rest of the attachment loop body (main.py:436-459): sanitize the
filename (skipping a nameless attachment), build
`<sender>_<subject>_<date>_<uid>_<original>`, add a timestamp suffix when
that name already exists in the download folder, then attempt the write. -/
def saveAttachment (aOk : String → Bool) (msg : EmailMsg) (st : DState)
    (att : Attachment) : DState :=
  let original := sanitize_filename att.filename
  if original = "" then
    { st with log := st.log ++ ["Attachment with no filename. Skipping."] }
  else
    let sender := sanitize_filename msg.from_
    let invoice := sanitize_filename (if msg.subject = "" then "No_Subject" else msg.subject)
    let newFilename := sender ++ "_" ++ invoice ++ "_" ++ st.dateStr ++ "_" ++ msg.uid ++ "_" ++ original
    let fname :=
      if newFilename ∈ st.dir then
        (splitext newFilename).1 ++ "_" ++ st.nowTs ++ (splitext newFilename).2
      else newFilename
    writeAttachment aOk msg.uid fname st

/-- The message loop body of `check_emails` (main.py:423-470): a UID already
in the processed set is skipped entirely (`continue` before anything else);
a message with no attachments is marked processed immediately; otherwise all
attachments are handled and then the UID is marked processed. -/
def processMessage (okL : String → Bool) (aOk : String → Bool) (st : DState)
    (msg : EmailMsg) : DState :=
  if msg.uid ∈ st.processed then st
  else if msg.attachments = [] then
    savePU (okL msg.uid)
      { st with log := st.log ++ ["No attachments in UID " ++ msg.uid ++ ". Skipping."] }
      msg.uid
  else
    savePU (okL msg.uid) (msg.attachments.foldl (saveAttachment aOk msg) st) msg.uid

/-- The message loop of `check_emails` over the fetched messages. -/
def runMessages (okL : String → Bool) (aOk : String → Bool) (st : DState)
    (msgs : List EmailMsg) : DState :=
  msgs.foldl (processMessage okL aOk) st

/-- The outcome of one mailbox session: `success msgs` — the session ran to
completion over the fetched messages; `failureAfter msgs` — an exception was
raised after the listed messages had been handled (`failureAfter []` is a
connect/login/fetch failure). -/
inductive TickResult where
  | success (msgs : List EmailMsg)
  | failureAfter (msgs : List EmailMsg)
deriving DecidableEq

/-- `EmailAttachmentDownloader.check_emails` (main.py:408-502): a paused
monitor skips the tick entirely; a completed session resets the failure
counter and backoff to initial only under `if new_attachments > 0` (the
count of successful attachment writes of this tick) and never touches the
timer; an exception increments the failure counter, sets
`current_backoff = min(initial * factor ** failure_count, max)` and restarts
the timer with that interval (milliseconds). -/
def check_emails (okL : String → Bool) (aOk : String → Bool) (cfg : BackoffCfg)
    (st : DState) (r : TickResult) : DState :=
  if st.paused then st
  else
    match r with
    | .success msgs =>
      let st1 := runMessages okL aOk st msgs
      let newAttachments := st1.writes.length - st.writes.length
      if 0 < newAttachments then
        { st1 with failure_count := 0, current_backoff := cfg.initial_backoff }
      else st1
    | .failureAfter msgs =>
      let st1 := runMessages okL aOk st msgs
      let fc := st1.failure_count + 1
      let cb := min (cfg.initial_backoff * cfg.backoff_factor ^ fc) cfg.max_backoff
      { st1 with failure_count := fc, current_backoff := cb, timer := cb * 1000 }

/-- A run of consecutive poll ticks. -/
def runTicks (okL : String → Bool) (aOk : String → Bool) (cfg : BackoffCfg)
    (st : DState) (rs : List TickResult) : DState :=
  rs.foldl (check_emails okL aOk cfg) st

/-- `EmailAttachmentDownloader.load_processed_uids` (main.py:330-343): add
every stripped all-digit line of the ledger file to the in-memory set. -/
def load_processed_uids (st : DState) (lines : List String) : DState :=
  { st with
    processed :=
      (lines.foldl
        (fun p line =>
          let uid := String.mk (pyStrip line.data)
          if uid.data ≠ [] ∧ uid.data.all Char.isDigit then addSet p uid else p)
        st.processed) }

/-! ## Poller lemmas and claims C1, C3, C4, C8 -/

/-- Evaluation of `savePU` on both outcomes of the ledger write. -/
theorem savePU_eq (ok : Bool) (st : DState) (uid : String) :
    savePU ok st uid =
      if ok then
        { st with ledger := st.ledger ++ [uid],
                  processed := addSet st.processed uid,
                  log := st.log ++ ["Saved processed UID: " ++ uid] }
      else
        { st with log := st.log ++ ["Failed to save processed UID " ++ uid ++ ": " ++ "write failed"] } := by
  cases ok <;> rfl

/-- A list is contained in its `addSet` extension. -/
theorem subset_addSet (l : List String) (u : String) : l ⊆ addSet l u := by
  unfold addSet
  split
  · exact fun x hx => hx
  · exact List.subset_append_left l [u]

/-- C8: `save_processed_uid` adds the UID to the in-memory processed set only
after the append to the ledger file succeeds; if opening or writing the
ledger file raises, the in-memory set and the ledger are unchanged and the
error is logged; in both cases the call returns normally (`.ok`), so no
exception propagates to the caller. -/
theorem C8_save_processed_uid_ledger_first (ok : Bool) (st : DState) (uid : String) :
    ∃ st', save_processed_uid ok st uid = .ok st' ∧
      (ok = true →
        st'.processed = addSet st.processed uid ∧
        st'.ledger = st.ledger ++ [uid] ∧
        st'.log = st.log ++ ["Saved processed UID: " ++ uid]) ∧
      (ok = false →
        st'.processed = st.processed ∧
        st'.ledger = st.ledger ∧
        st'.log = st.log ++ ["Failed to save processed UID " ++ uid ++ ": " ++ "write failed"]) := by
  cases ok
  · refine ⟨_, rfl, ?_, ?_⟩
    · intro h; exact absurd h (by simp)
    · intro _; exact ⟨rfl, rfl, rfl⟩
  · refine ⟨_, rfl, ?_, ?_⟩
    · intro _; exact ⟨rfl, rfl, rfl⟩
    · intro h; exact absurd h (by simp)

/-- C8, witness: a failing ledger write leaves the set and the ledger
unchanged and logs the error; a succeeding one appends to both. -/
theorem C8_witness :
    (∃ st', save_processed_uid false ⟨["1"], ["1"], [], [], [], 0, 60, 600000, false, "d", "t"⟩ "9" = .ok st' ∧
      st'.processed = ["1"] ∧ st'.ledger = ["1"]) ∧
    (∃ st', save_processed_uid true ⟨["1"], ["1"], [], [], [], 0, 60, 600000, false, "d", "t"⟩ "9" = .ok st' ∧
      st'.processed = ["1", "9"] ∧ st'.ledger = ["1", "9"]) := by
  constructor
  · obtain ⟨st', h1, _, h3⟩ :=
      C8_save_processed_uid_ledger_first false ⟨["1"], ["1"], [], [], [], 0, 60, 600000, false, "d", "t"⟩ "9"
    obtain ⟨hp, hl, _⟩ := h3 rfl
    exact ⟨st', h1, hp, hl⟩
  · obtain ⟨st', h1, h2, _⟩ :=
      C8_save_processed_uid_ledger_first true ⟨["1"], ["1"], [], [], [], 0, 60, 600000, false, "d", "t"⟩ "9"
    obtain ⟨hp, hl, _⟩ := h2 rfl
    refine ⟨st', h1, ?_, ?_⟩
    · rw [hp]; decide
    · rw [hl]; decide

/-- Frame and trace properties of one attachment step: the processed set,
ledger and scheduler fields are untouched; the write trace grows only by
records tagged with the current message's UID. -/
theorem writeAttachment_spec (aOk : String → Bool) (uid fname : String) (st : DState) :
    (writeAttachment aOk uid fname st).processed = st.processed ∧
    (writeAttachment aOk uid fname st).ledger = st.ledger ∧
    (writeAttachment aOk uid fname st).failure_count = st.failure_count ∧
    (writeAttachment aOk uid fname st).current_backoff = st.current_backoff ∧
    (writeAttachment aOk uid fname st).timer = st.timer ∧
    (writeAttachment aOk uid fname st).paused = st.paused ∧
    ∃ exw, (writeAttachment aOk uid fname st).writes = st.writes ++ exw ∧
      ∀ w ∈ exw, w.1 = uid := by
  unfold writeAttachment
  by_cases h : aOk fname = true
  · rw [if_pos h]
    refine ⟨rfl, rfl, rfl, rfl, rfl, rfl, [(uid, fname)], rfl, ?_⟩
    intro w hw
    rcases List.mem_singleton.mp hw with h2
    rw [h2]
  · rw [if_neg h]
    exact ⟨rfl, rfl, rfl, rfl, rfl, rfl, [], by simp, by simp⟩

/-- Frame and trace properties of one attachment step (continued). -/
theorem saveAttachment_spec (aOk : String → Bool) (msg : EmailMsg) (st : DState)
    (att : Attachment) :
    (saveAttachment aOk msg st att).processed = st.processed ∧
    (saveAttachment aOk msg st att).ledger = st.ledger ∧
    (saveAttachment aOk msg st att).failure_count = st.failure_count ∧
    (saveAttachment aOk msg st att).current_backoff = st.current_backoff ∧
    (saveAttachment aOk msg st att).timer = st.timer ∧
    (saveAttachment aOk msg st att).paused = st.paused ∧
    ∃ exw, (saveAttachment aOk msg st att).writes = st.writes ++ exw ∧
      ∀ w ∈ exw, w.1 = msg.uid := by
  unfold saveAttachment
  by_cases h0 : sanitize_filename att.filename = ""
  · rw [if_pos h0]
    exact ⟨rfl, rfl, rfl, rfl, rfl, rfl, [], by simp, by simp⟩
  · rw [if_neg h0]
    simp only
    exact writeAttachment_spec aOk msg.uid _ st

/-- The attachment loop preserves the same fields and only appends writes
tagged with the message's UID. -/
theorem foldl_saveAttachment_spec (aOk : String → Bool) (msg : EmailMsg) :
    ∀ (atts : List Attachment) (st : DState),
    ((atts.foldl (saveAttachment aOk msg) st).processed = st.processed ∧
      (atts.foldl (saveAttachment aOk msg) st).ledger = st.ledger ∧
      (atts.foldl (saveAttachment aOk msg) st).failure_count = st.failure_count ∧
      (atts.foldl (saveAttachment aOk msg) st).current_backoff = st.current_backoff ∧
      (atts.foldl (saveAttachment aOk msg) st).timer = st.timer ∧
      (atts.foldl (saveAttachment aOk msg) st).paused = st.paused) ∧
    ∃ exw, (atts.foldl (saveAttachment aOk msg) st).writes = st.writes ++ exw ∧
      ∀ w ∈ exw, w.1 = msg.uid := by
  intro atts
  induction atts with
  | nil =>
    intro st
    exact ⟨⟨rfl, rfl, rfl, rfl, rfl, rfl⟩, [], by simp, by simp⟩
  | cons a atts ih =>
    intro st
    rw [List.foldl_cons]
    obtain ⟨hp, hl, hf, hc, htm, hpa, exw1, hw1, ht1⟩ := saveAttachment_spec aOk msg st a
    obtain ⟨⟨hp2, hl2, hf2, hc2, htm2, hpa2⟩, exw2, hw2, ht2⟩ := ih (saveAttachment aOk msg st a)
    refine ⟨⟨by rw [hp2, hp], by rw [hl2, hl], by rw [hf2, hf], by rw [hc2, hc],
            by rw [htm2, htm], by rw [hpa2, hpa]⟩, exw1 ++ exw2, ?_, ?_⟩
    · rw [hw2, hw1, List.append_assoc]
    · intro w hw
      rcases List.mem_append.mp hw with h | h
      · exact ht1 w h
      · exact ht2 w h

/-- Frame and trace properties of `savePU`: the download directory, write
trace and scheduler fields are untouched; the processed set only grows; the
ledger grows only by copies of the saved UID. -/
theorem savePU_spec (ok : Bool) (st : DState) (uid : String) :
    (savePU ok st uid).dir = st.dir ∧
    (savePU ok st uid).writes = st.writes ∧
    (savePU ok st uid).failure_count = st.failure_count ∧
    (savePU ok st uid).current_backoff = st.current_backoff ∧
    (savePU ok st uid).timer = st.timer ∧
    (savePU ok st uid).paused = st.paused ∧
    st.processed ⊆ (savePU ok st uid).processed ∧
    ∃ exl, (savePU ok st uid).ledger = st.ledger ++ exl ∧ ∀ x ∈ exl, x = uid := by
  rw [savePU_eq]
  cases ok
  · rw [if_neg (by decide : ¬(false = true))]
    refine ⟨rfl, rfl, rfl, rfl, rfl, rfl, fun x hx => hx, [], by simp, by simp⟩
  · rw [if_pos (rfl : true = true)]
    refine ⟨rfl, rfl, rfl, rfl, rfl, rfl, subset_addSet st.processed uid, [uid], rfl, ?_⟩
    intro x hx
    exact List.mem_singleton.mp hx

/-- Frame and trace properties of one message step of the tick loop: the
scheduler fields are untouched, the processed set only grows, the write
trace and the ledger grow only by records for the current message's UID, and
a message whose UID is already in the processed set leaves the state
entirely unchanged. -/
theorem processMessage_spec (okL aOk : String → Bool) (st : DState) (msg : EmailMsg) :
    (processMessage okL aOk st msg).failure_count = st.failure_count ∧
    (processMessage okL aOk st msg).current_backoff = st.current_backoff ∧
    (processMessage okL aOk st msg).timer = st.timer ∧
    (processMessage okL aOk st msg).paused = st.paused ∧
    st.processed ⊆ (processMessage okL aOk st msg).processed ∧
    (∃ exw, (processMessage okL aOk st msg).writes = st.writes ++ exw ∧
      ∀ w ∈ exw, w.1 = msg.uid) ∧
    (∃ exl, (processMessage okL aOk st msg).ledger = st.ledger ++ exl ∧
      ∀ x ∈ exl, x = msg.uid) ∧
    (msg.uid ∈ st.processed → processMessage okL aOk st msg = st) := by
  unfold processMessage
  by_cases hmem : msg.uid ∈ st.processed
  · rw [if_pos hmem]
    exact ⟨rfl, rfl, rfl, rfl, fun x hx => hx, ⟨[], by simp, by simp⟩,
      ⟨[], by simp, by simp⟩, fun _ => rfl⟩
  · rw [if_neg hmem]
    refine ?_
    by_cases hatt : msg.attachments = []
    · rw [if_pos hatt]
      obtain ⟨hd, hw, hf, hc, ht, hpa, hsub, exl, hl, hall⟩ :=
        savePU_spec (okL msg.uid)
          { st with log := st.log ++ ["No attachments in UID " ++ msg.uid ++ ". Skipping."] }
          msg.uid
      refine ⟨hf, hc, ht, hpa, hsub, ⟨[], by rw [hw]; simp, by simp⟩,
        ⟨exl, by rw [hl], hall⟩, ?_⟩
      intro hc2
      exact absurd hc2 hmem
    · rw [if_neg hatt]
      obtain ⟨⟨hp1, hl1, hf1, hc1, ht1, hpa1⟩, exw, hw1, htag⟩ :=
        foldl_saveAttachment_spec aOk msg msg.attachments st
      obtain ⟨hd2, hw2, hf2, hc2, ht2, hpa2, hsub2, exl, hl2, hall2⟩ :=
        savePU_spec (okL msg.uid) (msg.attachments.foldl (saveAttachment aOk msg) st) msg.uid
      refine ⟨by rw [hf2, hf1], by rw [hc2, hc1], by rw [ht2, ht1], by rw [hpa2, hpa1],
        ?_, ⟨exw, by rw [hw2, hw1], htag⟩, ⟨exl, by rw [hl2, hl1], hall2⟩, ?_⟩
      · intro x hx
        apply hsub2
        rw [hp1]
        exact hx
      · intro hc3
        exact absurd hc3 hmem

/-- Frame and trace properties of the whole message loop. -/
theorem runMessages_spec (okL aOk : String → Bool) :
    ∀ (msgs : List EmailMsg) (st : DState),
    (runMessages okL aOk st msgs).failure_count = st.failure_count ∧
    (runMessages okL aOk st msgs).current_backoff = st.current_backoff ∧
    (runMessages okL aOk st msgs).timer = st.timer ∧
    (runMessages okL aOk st msgs).paused = st.paused ∧
    st.processed ⊆ (runMessages okL aOk st msgs).processed ∧
    ∃ exw, (runMessages okL aOk st msgs).writes = st.writes ++ exw := by
  intro msgs
  induction msgs with
  | nil =>
    intro st
    exact ⟨rfl, rfl, rfl, rfl, fun x hx => hx, [], (List.append_nil st.writes).symm⟩
  | cons m msgs ih =>
    intro st
    have hstep : runMessages okL aOk st (m :: msgs) =
        runMessages okL aOk (processMessage okL aOk st m) msgs := rfl
    rw [hstep]
    obtain ⟨hf1, hc1, ht1, hpa1, hsub1, ⟨exw1, hw1, _⟩, _, _⟩ :=
      processMessage_spec okL aOk st m
    obtain ⟨hf2, hc2, ht2, hpa2, hsub2, exw2, hw2⟩ := ih (processMessage okL aOk st m)
    refine ⟨by rw [hf2, hf1], by rw [hc2, hc1], by rw [ht2, ht1], by rw [hpa2, hpa1],
      fun x hx => hsub2 (hsub1 hx), exw1 ++ exw2, ?_⟩
    rw [hw2, hw1, List.append_assoc]

/-- One message step never introduces writes or ledger lines for a UID that
is already in the processed set. -/
theorem processMessage_skip (okL aOk : String → Bool) (st : DState) (msg : EmailMsg)
    (uid : String) (h : uid ∈ st.processed) :
    (processMessage okL aOk st msg).writes.filter (fun w => w.1 == uid) =
      st.writes.filter (fun w => w.1 == uid) ∧
    (processMessage okL aOk st msg).ledger.count uid = st.ledger.count uid := by
  obtain ⟨_, _, _, _, _, ⟨exw, hw, htw⟩, ⟨exl, hl, htl⟩, hskip⟩ :=
    processMessage_spec okL aOk st msg
  by_cases he : msg.uid = uid
  · have h2 : msg.uid ∈ st.processed := by rw [he]; exact h
    rw [hskip h2]
    exact ⟨rfl, rfl⟩
  · constructor
    · rw [hw, List.filter_append]
      have hnil : exw.filter (fun w => w.1 == uid) = [] := by
        rw [List.filter_eq_nil_iff]
        intro w hwmem
        have hwuid := htw w hwmem
        rw [hwuid]
        intro hbeq
        exact he (beq_iff_eq.mp hbeq)
      rw [hnil, List.append_nil]
    · rw [hl, List.count_append]
      have hz : exl.count uid = 0 := by
        rw [List.count_eq_zero]
        intro hc
        exact he ((htl uid hc).symm)
      rw [hz]
      omega

/-- The message loop of one tick never introduces writes or ledger lines for
a UID that is already in the processed set at the start of the tick. -/
theorem runMessages_skip (okL aOk : String → Bool) :
    ∀ (msgs : List EmailMsg) (st : DState) (uid : String), uid ∈ st.processed →
    (runMessages okL aOk st msgs).writes.filter (fun w => w.1 == uid) =
      st.writes.filter (fun w => w.1 == uid) ∧
    (runMessages okL aOk st msgs).ledger.count uid = st.ledger.count uid := by
  intro msgs
  induction msgs with
  | nil => intro st uid _; exact ⟨rfl, rfl⟩
  | cons m msgs ih =>
    intro st uid h
    obtain ⟨hw1, hc1⟩ := processMessage_skip okL aOk st m uid h
    have h2 : uid ∈ (processMessage okL aOk st m).processed :=
      (processMessage_spec okL aOk st m).2.2.2.2.1 h
    obtain ⟨hw2, hc2⟩ := ih (processMessage okL aOk st m) uid h2
    have hstep : runMessages okL aOk st (m :: msgs) =
        runMessages okL aOk (processMessage okL aOk st m) msgs := rfl
    rw [hstep]
    exact ⟨hw2.trans hw1, hc2.trans hc1⟩

/-- A paused monitor skips the tick entirely. -/
theorem check_emails_paused_eq (okL aOk : String → Bool) (cfg : BackoffCfg)
    (st : DState) (r : TickResult) (hp : st.paused = true) :
    check_emails okL aOk cfg st r = st := by
  unfold check_emails
  rw [if_pos hp]

/-- Evaluation of a completed (exception-free) tick. -/
theorem check_emails_success_eq (okL aOk : String → Bool) (cfg : BackoffCfg)
    (st : DState) (msgs : List EmailMsg) (hp : st.paused = false) :
    check_emails okL aOk cfg st (.success msgs) =
      (if 0 < (runMessages okL aOk st msgs).writes.length - st.writes.length then
        { runMessages okL aOk st msgs with
          failure_count := 0, current_backoff := cfg.initial_backoff }
      else runMessages okL aOk st msgs) := by
  unfold check_emails
  rw [if_neg (by rw [hp]; simp)]

/-- Evaluation of a failed tick. -/
theorem check_emails_failure_eq (okL aOk : String → Bool) (cfg : BackoffCfg)
    (st : DState) (msgs : List EmailMsg) (hp : st.paused = false) :
    check_emails okL aOk cfg st (.failureAfter msgs) =
      { runMessages okL aOk st msgs with
        failure_count := (runMessages okL aOk st msgs).failure_count + 1,
        current_backoff :=
          min (cfg.initial_backoff *
            cfg.backoff_factor ^ ((runMessages okL aOk st msgs).failure_count + 1))
            cfg.max_backoff,
        timer :=
          (min (cfg.initial_backoff *
            cfg.backoff_factor ^ ((runMessages okL aOk st msgs).failure_count + 1))
            cfg.max_backoff) * 1000 } := by
  unfold check_emails
  rw [if_neg (by rw [hp]; simp)]

/-- Any single tick: writes and ledger lines for an already-processed UID are
unchanged, and the processed set only grows. -/
theorem check_emails_skip (okL aOk : String → Bool) (cfg : BackoffCfg)
    (st : DState) (r : TickResult) (uid : String) (h : uid ∈ st.processed) :
    (check_emails okL aOk cfg st r).writes.filter (fun w => w.1 == uid) =
      st.writes.filter (fun w => w.1 == uid) ∧
    (check_emails okL aOk cfg st r).ledger.count uid = st.ledger.count uid ∧
    st.processed ⊆ (check_emails okL aOk cfg st r).processed := by
  by_cases hp : st.paused = true
  · rw [check_emails_paused_eq okL aOk cfg st r hp]
    exact ⟨rfl, rfl, fun x hx => hx⟩
  · have hp2 : st.paused = false := by
      cases hb : st.paused
      · rfl
      · exact absurd hb hp
    cases r with
    | success msgs =>
      rw [check_emails_success_eq okL aOk cfg st msgs hp2]
      obtain ⟨hw, hc⟩ := runMessages_skip okL aOk msgs st uid h
      have hsub := (runMessages_spec okL aOk msgs st).2.2.2.2.1
      by_cases hcond : 0 < (runMessages okL aOk st msgs).writes.length - st.writes.length
      · rw [if_pos hcond]
        exact ⟨hw, hc, hsub⟩
      · rw [if_neg hcond]
        exact ⟨hw, hc, hsub⟩
    | failureAfter msgs =>
      rw [check_emails_failure_eq okL aOk cfg st msgs hp2]
      obtain ⟨hw, hc⟩ := runMessages_skip okL aOk msgs st uid h
      have hsub := (runMessages_spec okL aOk msgs st).2.2.2.2.1
      exact ⟨hw, hc, hsub⟩

/-- The processed set only ever grows across a tick. -/
theorem check_emails_mono (okL aOk : String → Bool) (cfg : BackoffCfg)
    (st : DState) (r : TickResult) :
    st.processed ⊆ (check_emails okL aOk cfg st r).processed := by
  by_cases hp : st.paused = true
  · rw [check_emails_paused_eq okL aOk cfg st r hp]
    exact fun x hx => hx
  · have hp2 : st.paused = false := by
      cases hb : st.paused
      · rfl
      · exact absurd hb hp
    cases r with
    | success msgs =>
      rw [check_emails_success_eq okL aOk cfg st msgs hp2]
      have hsub := (runMessages_spec okL aOk msgs st).2.2.2.2.1
      by_cases hcond : 0 < (runMessages okL aOk st msgs).writes.length - st.writes.length
      · rw [if_pos hcond]
        exact hsub
      · rw [if_neg hcond]
        exact hsub
    | failureAfter msgs =>
      rw [check_emails_failure_eq okL aOk cfg st msgs hp2]
      exact (runMessages_spec okL aOk msgs st).2.2.2.2.1

/-- The in-memory processed set only grows when the ledger file is loaded. -/
theorem load_processed_uids_mono (st : DState) (lines : List String) :
    st.processed ⊆ (load_processed_uids st lines).processed := by
  unfold load_processed_uids
  show st.processed ⊆ lines.foldl _ st.processed
  have hgen : ∀ (ls : List String) (p : List String),
      p ⊆ ls.foldl
        (fun p line =>
          let uid := String.mk (pyStrip line.data)
          if uid.data ≠ [] ∧ uid.data.all Char.isDigit then addSet p uid else p)
        p := by
    intro ls
    induction ls with
    | nil => intro p; exact fun x hx => hx
    | cons line ls ih =>
      intro p
      rw [List.foldl_cons]
      intro x hx
      apply ih
      simp only
      split
      · exact subset_addSet p _ hx
      · exact hx
  exact hgen lines st.processed

/-- C4: a message identifier already present in the processed-UID set is
skipped entirely by every later poll tick — no attachment writes tagged with
it appear and it is not appended to the ledger again (in fact the message
step is the identity on the state) — and the processed set only ever grows:
ticks and the ledger load only add identifiers, nothing removes one. -/
theorem C4_processed_uid_never_reprocessed (okL aOk : String → Bool)
    (cfg : BackoffCfg) (st : DState) (uid : String) (rs : List TickResult)
    (lines : List String) (h : uid ∈ st.processed) :
    (runTicks okL aOk cfg st rs).writes.filter (fun w => w.1 == uid) =
      st.writes.filter (fun w => w.1 == uid) ∧
    (runTicks okL aOk cfg st rs).ledger.count uid = st.ledger.count uid ∧
    (∀ st2 msg, uid ∈ st2.processed → msg.uid = uid →
      processMessage okL aOk st2 msg = st2) ∧
    st.processed ⊆ (runTicks okL aOk cfg st rs).processed ∧
    st.processed ⊆ (load_processed_uids st lines).processed := by
  have hmain : ∀ (rs : List TickResult) (st : DState), uid ∈ st.processed →
      (runTicks okL aOk cfg st rs).writes.filter (fun w => w.1 == uid) =
        st.writes.filter (fun w => w.1 == uid) ∧
      (runTicks okL aOk cfg st rs).ledger.count uid = st.ledger.count uid ∧
      st.processed ⊆ (runTicks okL aOk cfg st rs).processed := by
    intro rs
    induction rs with
    | nil => intro st _; exact ⟨rfl, rfl, fun x hx => hx⟩
    | cons r rs ih =>
      intro st hst
      obtain ⟨hw1, hc1, hsub1⟩ := check_emails_skip okL aOk cfg st r uid hst
      obtain ⟨hw2, hc2, hsub2⟩ := ih (check_emails okL aOk cfg st r) (hsub1 hst)
      have hstep : runTicks okL aOk cfg st (r :: rs) =
          runTicks okL aOk cfg (check_emails okL aOk cfg st r) rs := rfl
      rw [hstep]
      exact ⟨hw2.trans hw1, hc2.trans hc1, fun x hx => hsub2 (hsub1 hx)⟩
  obtain ⟨hw, hc, hsub⟩ := hmain rs st h
  refine ⟨hw, hc, ?_, hsub, load_processed_uids_mono st lines⟩
  intro st2 msg hst2 huid
  have hmem : msg.uid ∈ st2.processed := by rw [huid]; exact hst2
  exact (processMessage_spec okL aOk st2 msg).2.2.2.2.2.2.2 hmem

/-- C4, witness: with UID 5 already in the ledger set, a tick whose fetch
returns messages with UIDs 5 and 6 writes nothing tagged 5 and appends no
new ledger line for 5, while UID 6 is processed. -/
theorem C4_witness :
    "5" ∈ (["5"] : List String) ∧
    (runTicks (fun _ => true) (fun _ => true) ⟨60, 2, 3600, 600⟩
        ⟨["5"], ["5"], [], [], [], 0, 60, 600000, false, "d", "t"⟩
        [.success [⟨"5", "Inv", "a@b.c", [⟨"f.pdf"⟩]⟩, ⟨"6", "Inv", "a@b.c", [⟨"g.pdf"⟩]⟩]]).writes.filter
        (fun w => w.1 == "5") =
      (⟨["5"], ["5"], [], [], [], 0, 60, 600000, false, "d", "t"⟩ : DState).writes.filter
        (fun w => w.1 == "5") ∧
    (runTicks (fun _ => true) (fun _ => true) ⟨60, 2, 3600, 600⟩
        ⟨["5"], ["5"], [], [], [], 0, 60, 600000, false, "d", "t"⟩
        [.success [⟨"5", "Inv", "a@b.c", [⟨"f.pdf"⟩]⟩, ⟨"6", "Inv", "a@b.c", [⟨"g.pdf"⟩]⟩]]).ledger.count
        "5" =
      (⟨["5"], ["5"], [], [], [], 0, 60, 600000, false, "d", "t"⟩ : DState).ledger.count "5" := by
  refine ⟨by decide, ?_, ?_⟩
  · exact (C4_processed_uid_never_reprocessed (fun _ => true) (fun _ => true)
      ⟨60, 2, 3600, 600⟩ ⟨["5"], ["5"], [], [], [], 0, 60, 600000, false, "d", "t"⟩ "5"
      [.success [⟨"5", "Inv", "a@b.c", [⟨"f.pdf"⟩]⟩, ⟨"6", "Inv", "a@b.c", [⟨"g.pdf"⟩]⟩]]
      [] (by decide)).1
  · exact (C4_processed_uid_never_reprocessed (fun _ => true) (fun _ => true)
      ⟨60, 2, 3600, 600⟩ ⟨["5"], ["5"], [], [], [], 0, 60, 600000, false, "d", "t"⟩ "5"
      [.success [⟨"5", "Inv", "a@b.c", [⟨"f.pdf"⟩]⟩, ⟨"6", "Inv", "a@b.c", [⟨"g.pdf"⟩]⟩]]
      [] (by decide)).2.1

/-- C1, counterexample: after one failed tick, a successful tick that finds
no new attachments resets nothing — the failure counter stays 1 (not 0), the
backoff stays 120 (not the initial 60), and the timer stays at the backoff
interval 120000 ms (the normal 600-second polling interval does not
resume).  This refutes "regardless of whether any new attachments were
found". -/
theorem C1_counterexample :
    (check_emails (fun _ => true) (fun _ => true) ⟨60, 2, 3600, 600⟩
      (check_emails (fun _ => true) (fun _ => true) ⟨60, 2, 3600, 600⟩
        ⟨[], [], [], [], [], 0, 60, 600000, false, "d", "t"⟩ (.failureAfter []))
      (.success [])).failure_count = 1 ∧
    (check_emails (fun _ => true) (fun _ => true) ⟨60, 2, 3600, 600⟩
      (check_emails (fun _ => true) (fun _ => true) ⟨60, 2, 3600, 600⟩
        ⟨[], [], [], [], [], 0, 60, 600000, false, "d", "t"⟩ (.failureAfter []))
      (.success [])).current_backoff = 120 ∧
    (check_emails (fun _ => true) (fun _ => true) ⟨60, 2, 3600, 600⟩
      (check_emails (fun _ => true) (fun _ => true) ⟨60, 2, 3600, 600⟩
        ⟨[], [], [], [], [], 0, 60, 600000, false, "d", "t"⟩ (.failureAfter []))
      (.success [])).timer = 120000 ∧
    ¬((check_emails (fun _ => true) (fun _ => true) ⟨60, 2, 3600, 600⟩
      (check_emails (fun _ => true) (fun _ => true) ⟨60, 2, 3600, 600⟩
        ⟨[], [], [], [], [], 0, 60, 600000, false, "d", "t"⟩ (.failureAfter []))
      (.success [])).failure_count = 0 ∧
      (check_emails (fun _ => true) (fun _ => true) ⟨60, 2, 3600, 600⟩
        (check_emails (fun _ => true) (fun _ => true) ⟨60, 2, 3600, 600⟩
          ⟨[], [], [], [], [], 0, 60, 600000, false, "d", "t"⟩ (.failureAfter []))
        (.success [])).current_backoff = 60 ∧
      (check_emails (fun _ => true) (fun _ => true) ⟨60, 2, 3600, 600⟩
        (check_emails (fun _ => true) (fun _ => true) ⟨60, 2, 3600, 600⟩
          ⟨[], [], [], [], [], 0, 60, 600000, false, "d", "t"⟩ (.failureAfter []))
        (.success [])).timer = 600 * 1000) := by decide

/-- C1, amended: a poll tick that completes without raising an exception
resets the failure counter to 0 and the backoff to initial exactly when at
least one new attachment was downloaded during that tick; with zero new
attachments it leaves both unchanged; and in neither case does it change the
timer interval (the normal polling interval is not restored by a successful
tick). -/
theorem C1_amended_reset_only_on_new_attachments (okL aOk : String → Bool)
    (cfg : BackoffCfg) (st : DState) (msgs : List EmailMsg)
    (hp : st.paused = false) :
    ((check_emails okL aOk cfg st (.success msgs)).writes.length > st.writes.length →
      (check_emails okL aOk cfg st (.success msgs)).failure_count = 0 ∧
      (check_emails okL aOk cfg st (.success msgs)).current_backoff = cfg.initial_backoff) ∧
    (¬((check_emails okL aOk cfg st (.success msgs)).writes.length > st.writes.length) →
      (check_emails okL aOk cfg st (.success msgs)).failure_count = st.failure_count ∧
      (check_emails okL aOk cfg st (.success msgs)).current_backoff = st.current_backoff) ∧
    (check_emails okL aOk cfg st (.success msgs)).timer = st.timer := by
  rw [check_emails_success_eq okL aOk cfg st msgs hp]
  obtain ⟨hf, hc, ht, _, _, exw, hw⟩ := runMessages_spec okL aOk msgs st
  have hlen : (runMessages okL aOk st msgs).writes.length =
      st.writes.length + exw.length := by
    rw [hw, List.length_append]
  by_cases hcond : 0 < (runMessages okL aOk st msgs).writes.length - st.writes.length
  · rw [if_pos hcond]
    refine ⟨fun _ => ⟨rfl, rfl⟩, ?_, ht⟩
    intro hnot
    exact absurd (by omega : (runMessages okL aOk st msgs).writes.length > st.writes.length)
      hnot
  · rw [if_neg hcond]
    refine ⟨?_, fun _ => ⟨hf, hc⟩, ht⟩
    intro hgt
    exact absurd (by omega : 0 < (runMessages okL aOk st msgs).writes.length - st.writes.length)
      hcond

/-- C1, witness: a successful tick over an empty fetch leaves the timer
interval unchanged. -/
theorem C1_witness :
    (⟨[], [], [], [], [], 0, 60, 600000, false, "d", "t"⟩ : DState).paused = false ∧
    (check_emails (fun _ => true) (fun _ => true) ⟨60, 2, 3600, 600⟩
      ⟨[], [], [], [], [], 0, 60, 600000, false, "d", "t"⟩ (.success [])).timer =
      (⟨[], [], [], [], [], 0, 60, 600000, false, "d", "t"⟩ : DState).timer := by
  refine ⟨rfl, ?_⟩
  exact (C1_amended_reset_only_on_new_attachments (fun _ => true) (fun _ => true)
    ⟨60, 2, 3600, 600⟩ ⟨[], [], [], [], [], 0, 60, 600000, false, "d", "t"⟩ [] rfl).2.2

/-- C3, counterexample: the failure counter is not the length of the current
run of consecutive failures — a success with zero new attachments does not
reset it.  After the tick sequence fail, success(no attachments), fail, the
trailing run of consecutive failing ticks has length N = 1, but the failure
counter is 2 and the backoff is `min(60 * 2^2, 3600) = 240`, not
`min(60 * 2^1, 3600) = 120` as the claim predicts for N = 1. -/
theorem C3_counterexample :
    (runTicks (fun _ => true) (fun _ => true) ⟨60, 2, 3600, 600⟩
      ⟨[], [], [], [], [], 0, 60, 600000, false, "d", "t"⟩
      [.failureAfter [], .success [], .failureAfter []]).failure_count = 2 ∧
    (runTicks (fun _ => true) (fun _ => true) ⟨60, 2, 3600, 600⟩
      ⟨[], [], [], [], [], 0, 60, 600000, false, "d", "t"⟩
      [.failureAfter [], .success [], .failureAfter []]).current_backoff = 240 ∧
    ¬((runTicks (fun _ => true) (fun _ => true) ⟨60, 2, 3600, 600⟩
        ⟨[], [], [], [], [], 0, 60, 600000, false, "d", "t"⟩
        [.failureAfter [], .success [], .failureAfter []]).failure_count = 1 ∧
      (runTicks (fun _ => true) (fun _ => true) ⟨60, 2, 3600, 600⟩
        ⟨[], [], [], [], [], 0, 60, 600000, false, "d", "t"⟩
        [.failureAfter [], .success [], .failureAfter []]).current_backoff =
          min (60 * 2 ^ 1) 3600) := by decide

/-- Running a nonempty train of failing ticks from an arbitrary unpaused
state: the counter advances by the number of failures and the backoff and
timer are recomputed from the final counter value. -/
theorem runFail_general (okL aOk : String → Bool) (cfg : BackoffCfg) :
    ∀ (ticks : List (List EmailMsg)) (st : DState), st.paused = false →
    (runTicks okL aOk cfg st (ticks.map TickResult.failureAfter)).paused = false ∧
    (runTicks okL aOk cfg st (ticks.map TickResult.failureAfter)).failure_count =
      st.failure_count + ticks.length ∧
    (ticks ≠ [] →
      (runTicks okL aOk cfg st (ticks.map TickResult.failureAfter)).current_backoff =
        min (cfg.initial_backoff *
          cfg.backoff_factor ^ (st.failure_count + ticks.length)) cfg.max_backoff ∧
      (runTicks okL aOk cfg st (ticks.map TickResult.failureAfter)).timer =
        (runTicks okL aOk cfg st (ticks.map TickResult.failureAfter)).current_backoff * 1000) := by
  intro ticks
  induction ticks with
  | nil =>
    intro st hp
    refine ⟨hp, ?_, fun hne => absurd rfl hne⟩
    show st.failure_count = st.failure_count + ([] : List (List EmailMsg)).length
    simp
  | cons ms ticks ih =>
    intro st hp
    have hstep : runTicks okL aOk cfg st ((ms :: ticks).map TickResult.failureAfter) =
        runTicks okL aOk cfg (check_emails okL aOk cfg st (.failureAfter ms))
          (ticks.map TickResult.failureAfter) := rfl
    rw [hstep]
    obtain ⟨hf1, _, _, hpa1, _, _⟩ := runMessages_spec okL aOk ms st
    have hfail := check_emails_failure_eq okL aOk cfg st ms hp
    have hfc : (check_emails okL aOk cfg st (.failureAfter ms)).failure_count =
        st.failure_count + 1 := by
      rw [hfail]
      show (runMessages okL aOk st ms).failure_count + 1 = st.failure_count + 1
      rw [hf1]
    have hcb : (check_emails okL aOk cfg st (.failureAfter ms)).current_backoff =
        min (cfg.initial_backoff * cfg.backoff_factor ^ (st.failure_count + 1))
          cfg.max_backoff := by
      rw [hfail]
      show min (cfg.initial_backoff *
        cfg.backoff_factor ^ ((runMessages okL aOk st ms).failure_count + 1))
        cfg.max_backoff = _
      rw [hf1]
    have htm : (check_emails okL aOk cfg st (.failureAfter ms)).timer =
        (min (cfg.initial_backoff * cfg.backoff_factor ^ (st.failure_count + 1))
          cfg.max_backoff) * 1000 := by
      rw [hfail]
      show (min (cfg.initial_backoff *
        cfg.backoff_factor ^ ((runMessages okL aOk st ms).failure_count + 1))
        cfg.max_backoff) * 1000 = _
      rw [hf1]
    have hpa : (check_emails okL aOk cfg st (.failureAfter ms)).paused = false := by
      rw [hfail]
      show (runMessages okL aOk st ms).paused = false
      rw [hpa1, hp]
    obtain ⟨hpa2, hfc2, hrest⟩ := ih (check_emails okL aOk cfg st (.failureAfter ms)) hpa
    refine ⟨hpa2, by rw [hfc2, hfc]; simp only [List.length_cons]; omega, ?_⟩
    intro _
    cases hte : ticks with
    | nil =>
      subst hte
      have hid : runTicks okL aOk cfg (check_emails okL aOk cfg st (.failureAfter ms))
          (([] : List (List EmailMsg)).map TickResult.failureAfter) =
          check_emails okL aOk cfg st (.failureAfter ms) := rfl
      rw [hid]
      have hexp : st.failure_count + (ms :: ([] : List (List EmailMsg))).length =
          st.failure_count + 1 := by simp
      rw [hexp]
      exact ⟨hcb, by rw [htm, hcb]⟩
    | cons t ts =>
      have hne2 : ticks ≠ [] := by rw [hte]; simp
      obtain ⟨hcb2, htm2⟩ := hrest hne2
      rw [hfc] at hcb2
      have hexp : st.failure_count + 1 + ticks.length =
          st.failure_count + (ms :: ticks).length := by
        simp only [List.length_cons]
        omega
      rw [hexp] at hcb2
      rw [← hte]
      exact ⟨hcb2, htm2⟩

/-- C3, amended: after N ≥ 1 consecutive failing poll ticks starting from a
state whose failure counter is 0 (i.e. counting the failures since startup
or since the last tick that downloaded at least one new attachment), the
failure counter equals N, the current backoff equals
`min(initial_backoff * backoff_factor^N, max_backoff)`, and the timer is
restarted with the current backoff (milliseconds of that many seconds)
instead of the normal polling interval. -/
theorem C3_amended_backoff_formula (okL aOk : String → Bool) (cfg : BackoffCfg)
    (st : DState) (ticks : List (List EmailMsg))
    (hp : st.paused = false) (h0 : st.failure_count = 0) (hne : ticks ≠ []) :
    (runTicks okL aOk cfg st (ticks.map TickResult.failureAfter)).failure_count =
      ticks.length ∧
    (runTicks okL aOk cfg st (ticks.map TickResult.failureAfter)).current_backoff =
      min (cfg.initial_backoff * cfg.backoff_factor ^ ticks.length) cfg.max_backoff ∧
    (runTicks okL aOk cfg st (ticks.map TickResult.failureAfter)).timer =
      (runTicks okL aOk cfg st (ticks.map TickResult.failureAfter)).current_backoff * 1000 := by
  obtain ⟨_, hfc, hrest⟩ := runFail_general okL aOk cfg ticks st hp
  obtain ⟨hcb, htm⟩ := hrest hne
  rw [h0] at hfc hcb
  simp only [Nat.zero_add] at hfc hcb
  exact ⟨hfc, hcb, htm⟩

/-- C3, witness: one failing tick from a fresh state yields failure counter
1, backoff `min(60 * 2^1, 3600) = 120`, and a timer of 120000 ms. -/
theorem C3_witness :
    (⟨[], [], [], [], [], 0, 60, 600000, false, "d", "t"⟩ : DState).paused = false ∧
    (⟨[], [], [], [], [], 0, 60, 600000, false, "d", "t"⟩ : DState).failure_count = 0 ∧
    (runTicks (fun _ => true) (fun _ => true) ⟨60, 2, 3600, 600⟩
      ⟨[], [], [], [], [], 0, 60, 600000, false, "d", "t"⟩
      ([[]].map TickResult.failureAfter)).failure_count = ([([] : List EmailMsg)]).length ∧
    (runTicks (fun _ => true) (fun _ => true) ⟨60, 2, 3600, 600⟩
      ⟨[], [], [], [], [], 0, 60, 600000, false, "d", "t"⟩
      ([[]].map TickResult.failureAfter)).current_backoff =
      min (60 * 2 ^ ([([] : List EmailMsg)]).length) 3600 := by
  refine ⟨rfl, rfl, ?_, ?_⟩
  · exact (C3_amended_backoff_formula (fun _ => true) (fun _ => true) ⟨60, 2, 3600, 600⟩
      ⟨[], [], [], [], [], 0, 60, 600000, false, "d", "t"⟩ [[]] rfl rfl (by simp)).1
  · exact (C3_amended_backoff_formula (fun _ => true) (fun _ => true) ⟨60, 2, 3600, 600⟩
      ⟨[], [], [], [], [], 0, 60, 600000, false, "d", "t"⟩ [[]] rfl rfl (by simp)).2.1

end WormsDirect
